/-
Verification of the chunking / offset-reconciliation / aggregation pipeline
of the GCP entity-extractor add-on (src/main.py).

The shallow embedding translates the Python source into Lean definitions:
pure loops become structural recursions over explicit state, the remote
collaborators (GCP analyze call, wikimapper lookup, DocumentCloud HTTP
client) become oracle function parameters, and exceptions (APIError,
KeyError, sys.exit) become Except / explicit outcome values.
-/
import Mathlib

namespace EntityAddon

/-- `BYTE_LIMIT = 1000000` (src/main.py line 22). -/
def BYTE_LIMIT : Nat := 1000000

/-- `BULK_LIMIT = 25` (src/main.py line 23). -/
def BULK_LIMIT : Nat := 25

/-- Number of bytes a character occupies in UTF-8; models the per-character
contribution to Python's `len(s.encode("utf8"))`. -/
def charBytes (c : Char) : Nat :=
  if c.toNat ≤ 0x7F then 1
  else if c.toNat ≤ 0x7FF then 2
  else if c.toNat ≤ 0xFFFF then 3
  else 4

/-- UTF-8 encoded byte length of a text, models `len(s.encode("utf8"))`. -/
def utf8Len : List Char → Nat
  | [] => 0
  | c :: cs => charBytes c + utf8Len cs

/-- The two-character page separator `"\n\n"` appended to each page
(src/main.py lines 103 and 108). -/
def sep : List Char := ['\n', '\n']

/-- A chunk of text passed to one `extract_entities_text` call, together
with the character offset at which it starts (spec §3 "Chunk"). -/
structure Chunk where
  text : List Char
  char_offset : Nat
deriving DecidableEq, Repr

instance : Inhabited Chunk := ⟨⟨[], 0⟩⟩

/-- The loop state of `extract_entities` (src/main.py lines 69-74):
`texts`, `total_bytes`, `page_map`, `character_offset`, `total_characters`,
plus the chunks flushed so far (in the source each flush immediately calls
`extract_entities_text`; we record the flushed chunks in order and compose
the extraction calls afterwards, which performs the same call sequence). -/
structure BuildState where
  texts : List (List Char)
  total_bytes : Nat
  page_map : List Nat
  character_offset : Nat
  total_characters : Nat
  chunks : List Chunk
deriving Repr

/-- `page_map.append(page_map[-1] + page_chars)` (src/main.py line 87);
`page_map` is always nonempty (it starts as `[0]`), so `getLastD 0`
is Python's `page_map[-1]`. -/
def pmStep (pm : List Nat) (page : List Char) : List Nat :=
  pm ++ [pm.getLastD 0 + (page.length + 2)]

/-- One iteration of the page loop of `extract_entities`
(src/main.py lines 82-110).  `none` models the early `return` when a single
page exceeds `BYTE_LIMIT` (line 93). -/
def stepPage (st : BuildState) (page : List Char) : Option BuildState :=
  let page_chars := page.length + 2
  let page_map := pmStep st.page_map page
  let page_bytes := utf8Len page
  if page_bytes > BYTE_LIMIT then
    none
  else if st.total_bytes + page_bytes > BYTE_LIMIT then
    some { texts := [page ++ sep]
           total_bytes := page_bytes
           page_map := page_map
           character_offset := st.total_characters
           total_characters := st.total_characters + page_chars
           chunks := st.chunks ++ [⟨st.texts.flatten, st.character_offset⟩] }
  else
    some { texts := st.texts ++ [page ++ sep]
           total_bytes := st.total_bytes + page_bytes
           page_map := page_map
           character_offset := st.character_offset
           total_characters := st.total_characters + page_chars
           chunks := st.chunks }

/-- The whole page loop of `extract_entities` (src/main.py lines 82-110). -/
def buildChunksAux : List (List Char) → BuildState → Option BuildState
  | [], st => some st
  | page :: pages, st =>
    match stepPage st page with
    | none => none
    | some st2 => buildChunksAux pages st2

/-- The initial loop state (src/main.py lines 69-73). -/
def initState : BuildState := ⟨[], 0, [0], 0, 0, []⟩

/-- The chunk-building part of `extract_entities` (src/main.py lines 69-114):
runs the page loop and then performs the unconditional final flush
(line 114), returning the chunks (in the order they are sent to
`extract_entities_text`) and the page map.  `none` models the early
`return` for an oversized page. -/
def extract_entities_chunks (pages : List (List Char)) :
    Option (List Chunk × List Nat) :=
  match buildChunksAux pages initState with
  | none => none
  | some st => some (st.chunks ++ [⟨st.texts.flatten, st.character_offset⟩], st.page_map)

/-- The document text as analyzed: every page followed by the two-character
separator, concatenated in order. -/
def docText (pages : List (List Char)) : List Char :=
  (pages.map (fun p => p ++ sep)).flatten

/-- One mention span returned by the analyze call:
`mention["text"]["content"]` and `mention["text"]["begin_offset"]`. -/
structure Mention where
  content : String
  begin_offset : Nat
deriving DecidableEq, Repr

/-- The `metadata` dictionary of an entity as used by the source:
`wikipedia_url` (present for retained entities, src/main.py line 132) and
`wikidata_id` (written by `get_or_create_entities`, line 207). -/
structure Metadata where
  wikipedia_url : Option String
  wikidata_id : Option String
deriving DecidableEq, Repr

/-- An entity dictionary from `AnalyzeEntitiesResponse.to_dict`, restricted
to the fields the source reads: `metadata`, `salience`, `mentions`.
`salience` is a float that is only copied, never computed with, so it is
modelled by an opaque integer payload. -/
structure RawEntity where
  metadata : Metadata
  salience : Int
  mentions : List Mention
deriving DecidableEq, Repr

/-- `extract_entities_text` (src/main.py lines 118-138): the remote
analyze call is the oracle `analyze`; the function keeps only entities
whose metadata carries a `wikipedia_url` and shifts every mention's
`begin_offset` by `character_offset`. -/
def extract_entities_text (analyze : List Char → List RawEntity)
    (text : List Char) (character_offset : Nat) : List RawEntity :=
  let entities := (analyze text).filter (fun e => e.metadata.wikipedia_url.isSome)
  entities.map (fun e =>
    { e with mentions := e.mentions.map (fun m =>
        { m with begin_offset := m.begin_offset + character_offset }) })

/-- `extract_entities` up to the final flush (src/main.py lines 69-114):
builds the chunks and performs one `extract_entities_text` call per chunk,
in order, concatenating the per-chunk entity lists (the source extends
`entities` at each flush; composing the calls over the produced chunk list
performs the same calls in the same order). -/
def extract_entities (analyze : List Char → List RawEntity)
    (pages : List (List Char)) : Option (List RawEntity × List Nat) :=
  match extract_entities_chunks pages with
  | none => none
  | some (chunks, page_map) =>
    some ((chunks.map (fun c =>
      extract_entities_text analyze c.text c.char_offset)).flatten, page_map)

/-- Python's `bisect.bisect` (= `bisect_right`) as used at
src/main.py line 249: on the sorted `page_map` it returns the insertion
point, i.e. the length of the longest prefix of elements `≤ x`. -/
def bisect (a : List Nat) (x : Nat) : Nat :=
  (a.takeWhile (fun y => y ≤ x)).length

/-- An occurrence record for one mention (src/main.py lines 244-254).
`page_offset` is an integer because Python's subtraction at line 250 can
in principle go negative. -/
structure Occurrence where
  content : String
  offset : Nat
  page : Nat
  page_offset : Int
deriving DecidableEq, Repr

/-- The body of the `transform_mentions` loop for one mention
(src/main.py lines 244-254).  `page_map[page]` is modelled with `getD`;
at the call site `bisect` is always ≥ 1 because `page_map` starts with 0. -/
def reconcile (page_map : List Nat) (m : Mention) : Occurrence :=
  let offset := m.begin_offset
  let page := bisect page_map offset - 1
  let page_offset := (offset : Int) - (page_map.getD page 0 : Int)
  ⟨m.content, offset, page, page_offset⟩

/-- `transform_mentions` (src/main.py lines 238-257). -/
def transform_mentions (mentions : List Mention) (page_map : List Nat) :
    List Occurrence :=
  mentions.map (reconcile page_map)

/-- Lookup in an insertion-ordered dictionary modelled as an association
list with unique keys (Python `dict`). -/
def dictLookup {κ β : Type} [DecidableEq κ] : List (κ × β) → κ → Option β
  | [], _ => none
  | (k2, v) :: rest, k => if k2 = k then some v else dictLookup rest k

/-- Assignment `d[k] = v` on an insertion-ordered dictionary: overwrites in
place if the key is present, otherwise appends at the end (Python `dict`
insertion-order semantics). -/
def dictInsert {κ β : Type} [DecidableEq κ] : List (κ × β) → κ → β → List (κ × β)
  | [], k, v => [(k, v)]
  | (k2, v2) :: rest, k, v =>
    if k2 = k then (k2, v) :: rest else (k2, v2) :: dictInsert rest k v

/-- Helper for `groupsOf`: one pass over the list, `acc` holding the
(reversed) current group and `k` its remaining capacity. -/
def groupsOfGo (n : Nat) : List α → List α → Nat → List (List α)
  | [], acc, _ => if acc.isEmpty then [] else [acc.reverse]
  | x :: xs, acc, 0 => acc.reverse :: groupsOfGo n xs [x] (n - 1)
  | x :: xs, acc, k + 1 => groupsOfGo n xs (x :: acc) k

/-- Splitting a list into consecutive groups of `n` (last group may be
shorter); `groupsOf 0` is degenerate and unused (`BULK_LIMIT = 25`). -/
def groupsOf (n : Nat) (l : List α) : List (List α) :=
  groupsOfGo n l [] n

/-- `documentcloud.toolbox.grouper(iterable, n)`: groups of exactly `n`,
the last group padded with `None`. -/
def grouper (l : List α) (n : Nat) : List (List (Option α)) :=
  (groupsOf n l).map (fun g => g.map some ++ List.replicate (n - g.length) none)

/-- Result of `get_or_create_entities`: the entities with their
`wikidata_id` filled in, the accumulated wikidata-id → catalog-id map, and
(for auditing the remote traffic) the id payloads of the lookup GET
requests and of the creation POST requests, in order. -/
structure ResolveResult where
  entities : List RawEntity
  entity_map : List (String × Nat)
  get_requests : List (List String)
  post_requests : List (List String)
deriving DecidableEq, Repr

/-- The creation loop of `get_or_create_entities`
(src/main.py lines 229-235): posts each group and merges the returned
(wikidata_id, catalog_id) pairs into the map.  The `post` oracle models
`self.client.post("entities/", ...)`; an `APIError` it raises is uncaught
in the source, which the `Except` bind reproduces: one failing batch makes
the whole function fail. -/
def createBatches (post : List String → Except Unit (List (String × Nat))) :
    List (List String) → List (String × Nat) →
    Except Unit (List (String × Nat) × List (List String))
  | [], entity_map => .ok (entity_map, [])
  | g :: gs, entity_map => do
    let resp ← post g
    let entity_map := resp.foldl (fun m p => dictInsert m p.1 p.2) entity_map
    let (m2, log) ← createBatches post gs entity_map
    .ok (m2, g :: log)

/-- `get_or_create_entities` (src/main.py lines 201-236).  Oracles:
`mapper` is `WikiMapper.url_to_id` (None when the lookup misses), `get` is
the `entities/?wikidata_id__in=...` GET, `post` the `entities/` POST; both
raise uncaught `APIError` on failure, modelled by `Except`.  Note the GET
is issued once with every id (the source comment announces a limit that is
not applied), while only the creation POSTs are grouped by `BULK_LIMIT`. -/
def get_or_create_entities (mapper : String → Option String)
    (get : List String → Except Unit (List (String × Nat)))
    (post : List String → Except Unit (List (String × Nat)))
    (entities : List RawEntity) : Except Unit ResolveResult := do
  let entities := entities.map (fun e =>
    { e with metadata := { e.metadata with
        wikidata_id := e.metadata.wikipedia_url.bind mapper } })
  let wikidata_ids := entities.filterMap (fun e => e.metadata.wikidata_id)
  let results ← get wikidata_ids
  let entity_map := results.foldl (fun m p => dictInsert m p.1 p.2) []
  let missing_wikidata_ids :=
    wikidata_ids.filter (fun q => (dictLookup entity_map q).isNone)
  let groups := (grouper missing_wikidata_ids BULK_LIMIT).map
    (fun g => g.filterMap id)
  let (entity_map, post_log) ← createBatches post groups entity_map
  .ok ⟨entities, entity_map, [wikidata_ids], post_log⟩

/-- `entity_map[entity["metadata"]["wikidata_id"]]` (src/main.py
line 153): `none` when the id is absent from the map (Python raises
`KeyError` there) or when `wikidata_id` is `None`. -/
def resolveId (entity_map : List (String × Nat)) (e : RawEntity) : Option Nat :=
  match e.metadata.wikidata_id with
  | none => none
  | some w => dictLookup entity_map w

/-- The collapsing loop of `create_entity_occurrences`
(src/main.py lines 151-162): the accumulator is the insertion-ordered
`collapsed_entities` dictionary; `.error ()` models the uncaught
`KeyError` when an entity's id is absent from `entity_map`. -/
def collapseLoop (entity_map : List (String × Nat)) (existing : List Nat) :
    List RawEntity → List (Nat × RawEntity) →
    Except Unit (List (Nat × RawEntity))
  | [], acc => .ok acc
  | e :: es, acc =>
    match resolveId entity_map e with
    | none => .error ()
    | some entity_id =>
      if entity_id ∈ existing then
        collapseLoop entity_map existing es acc
      else
        match dictLookup acc entity_id with
        | some prev =>
          collapseLoop entity_map existing es
            (dictInsert acc entity_id
              { prev with mentions := prev.mentions ++ e.mentions })
        | none => collapseLoop entity_map existing es (dictInsert acc entity_id e)

/-- One aggregated record, `{"entity": ..., "relevance": ...,
"occurrences": ...}` (src/main.py lines 166-174). -/
structure OccurrenceRecord where
  entity : Nat
  relevance : Int
  occurrences : List Occurrence
deriving DecidableEq, Repr

/-- The aggregation part of `create_entity_occurrences`
(src/main.py lines 147-174): filter to entities with a `wikidata_id`,
collapse by catalog id, and build the `occurrence_json` list (which again
filters out ids in `existing`). -/
def aggregate (entity_map : List (String × Nat)) (existing : List Nat)
    (entities : List RawEntity) (page_map : List Nat) :
    Except Unit (List OccurrenceRecord) :=
  let entities := entities.filter (fun e => e.metadata.wikidata_id.isSome)
  match collapseLoop entity_map existing entities [] with
  | .error e => .error e
  | .ok collapsed =>
    .ok ((collapsed.filter (fun p => decide (p.1 ∉ existing))).map
      (fun p => ⟨p.1, p.2.salience, transform_mentions p.2.mentions page_map⟩))

/-- `create_entity_occurrences` up to (not including) the submission loop
(src/main.py lines 140-174).  `getExisting` models
`get_existing_entities`: its `APIError` is caught and yields the empty set
(lines 49-56); the resolver's failures are *not* caught and propagate. -/
def create_entity_occurrences (getExisting : Except Unit (List Nat))
    (mapper : String → Option String)
    (get : List String → Except Unit (List (String × Nat)))
    (post : List String → Except Unit (List (String × Nat)))
    (entities : List RawEntity) (page_map : List Nat) :
    Except Unit (List OccurrenceRecord × ResolveResult) :=
  let existing := match getExisting with
    | .ok l => l
    | .error _ => []
  match get_or_create_entities mapper get post entities with
  | .error e => .error e
  | .ok rr =>
    match aggregate rr.entity_map existing rr.entities page_map with
    | .error e => .error e
    | .ok occurrence_json => .ok (occurrence_json, rr)

/-- Outcome of one `self.client.post("documents/{id}/entities/", ...)`
call: success, or an `APIError` with status 400, 403, or other. -/
inductive PostResult
  | ok
  | err400
  | err403
  | errOther
deriving DecidableEq, Repr

/-- The submission loop of `create_entity_occurrences`
(src/main.py lines 176-199).  Returns whether `sys.exit(0)` was reached
(HTTP 400, line 193) and the number of `self.errors` increments; 403 and
other API errors are logged/counted and the loop continues. -/
def submit_groups (post : List OccurrenceRecord → PostResult) :
    List (List OccurrenceRecord) → Bool × Nat
  | [] => (false, 0)
  | g :: gs =>
    match post g with
    | .ok => submit_groups post gs
    | .err400 => (true, 0)
    | .err403 =>
      let (e, n) := submit_groups post gs
      (e, n + 1)
    | .errOther =>
      let (e, n) := submit_groups post gs
      (e, n + 1)

/-- A document as the pipeline sees it: its id and the result of
`document.get_json_text()` — `none` models `DoesNotExistError`
(src/main.py line 62). -/
structure Document where
  id : Nat
  text : Option (List (List Char))
deriving Repr

/-- The remote collaborators of one run, as oracles. -/
structure DocOracles where
  analyze : List Char → List RawEntity
  mapper : String → Option String
  getEntities : List String → Except Unit (List (String × Nat))
  postEntities : List String → Except Unit (List (String × Nat))
  getExisting : Except Unit (List Nat)
  postOccurrences : List OccurrenceRecord → PostResult

/-- How processing one document ends.  `exitMissingText` and
`exitIndexing` are the two `sys.exit(0)` calls (src/main.py lines 68 and
193), which terminate the whole *process*; `crashed` is an uncaught
exception escaping `get_or_create_entities` / the collapse loop;
`pageTooLong` is the early `return` at line 93 (the per-document,
run-continuing failure); `done` is normal completion. -/
inductive DocOutcome
  | done
  | pageTooLong
  | exitMissingText
  | exitIndexing
  | crashed
deriving DecidableEq, Repr

/-- Whether the outcome terminates the whole process (so later documents
of the run are never reached). -/
def stopsRun : DocOutcome → Bool
  | .exitMissingText => true
  | .exitIndexing => true
  | .crashed => true
  | _ => false

/-- The aggregation + submission tail of `extract_entities`
(src/main.py lines 116 and 140-199). -/
def aggregation_and_submission (O : DocOracles) (entities : List RawEntity)
    (page_map : List Nat) : DocOutcome :=
  match create_entity_occurrences O.getExisting O.mapper O.getEntities
      O.postEntities entities page_map with
  | .error _ => .crashed
  | .ok (occurrence_json, _) =>
    let groups := (grouper occurrence_json BULK_LIMIT).map (fun g => g.filterMap id)
    let (exited, _errs) := submit_groups O.postOccurrences groups
    if exited then .exitIndexing else .done

/-- `extract_entities` for one document, end to end
(src/main.py lines 58-116). -/
def process_document (O : DocOracles) (doc : Document) : DocOutcome :=
  match doc.text with
  | none => .exitMissingText
  | some pages =>
    match extract_entities O.analyze pages with
    | none => .pageTooLong
    | some (entities, page_map) => aggregation_and_submission O entities page_map

/-- The driver loop of `main` (src/main.py lines 43-47): documents are
processed in order; a `sys.exit(0)` or an uncaught exception terminates
the process, so no later document is processed.  Returns the ids of the
documents whose processing was started. -/
def mainLoop (O : DocOracles) : List Document → List Nat
  | [] => []
  | d :: ds =>
    if stopsRun (process_document O d) then [d.id]
    else d.id :: mainLoop O ds

/-! ### Basic lemmas about `utf8Len` -/

theorem utf8Len_append (a b : List Char) :
    utf8Len (a ++ b) = utf8Len a + utf8Len b := by
  induction a with
  | nil => simp [utf8Len]
  | cons c cs ih => simp [utf8Len, ih, Nat.add_assoc]

theorem utf8Len_replicate (n : Nat) (c : Char) :
    utf8Len (List.replicate n c) = n * charBytes c := by
  induction n with
  | zero => simp [utf8Len]
  | succ k ih =>
    simp [List.replicate_succ, utf8Len, ih, Nat.succ_mul, Nat.add_comm]

theorem utf8Len_sep : utf8Len sep = 2 := by decide

/-! ### The page map -/

/-- The page-map fold performed by the page loop: `page_map` evolves by
`pmStep` on every page, in both branches of the loop. -/
def pmFold (pm : List Nat) (pages : List (List Char)) : List Nat :=
  pages.foldl pmStep pm

theorem getLastD_concat (l : List Nat) (a d : Nat) :
    (l ++ [a]).getLastD d = a := by
  induction l with
  | nil => rfl
  | cons x xs ih =>
    cases xs with
    | nil => rfl
    | cons y ys => simpa using ih

theorem stepPage_page_map {st st1 : BuildState} {page : List Char}
    (h : stepPage st page = some st1) :
    st1.page_map = pmStep st.page_map page := by
  simp only [stepPage] at h
  split at h
  · exact Option.noConfusion h
  · split at h <;> (injection h with h2; subst h2; rfl)

theorem buildChunksAux_page_map :
    ∀ (pages : List (List Char)) (st st2 : BuildState),
      buildChunksAux pages st = some st2 →
      st2.page_map = pmFold st.page_map pages
  | [], st, st2, h => by
    injection h with h; subst h; rfl
  | page :: pages, st, st2, h => by
    simp only [buildChunksAux] at h
    cases hs : stepPage st page with
    | none => rw [hs] at h; exact Option.noConfusion h
    | some st1 =>
      rw [hs] at h
      have := buildChunksAux_page_map pages st1 st2 h
      rw [this, stepPage_page_map hs]
      rfl

/-- The cumulative tail of the page map: successive sums of
(page length + 2) starting from `base`. -/
def sums (base : Nat) : List (List Char) → List Nat
  | [] => []
  | p :: ps => (base + (p.length + 2)) :: sums (base + (p.length + 2)) ps

theorem pmFold_eq (pages : List (List Char)) :
    ∀ pm : List Nat, pmFold pm pages = pm ++ sums (pm.getLastD 0) pages := by
  induction pages with
  | nil => intro pm; simp [pmFold, sums]
  | cons p ps ih =>
    intro pm
    have h1 : pmFold pm (p :: ps) = pmFold (pmStep pm p) ps := rfl
    rw [h1, ih]
    simp only [pmStep, getLastD_concat, sums, List.append_assoc,
      List.cons_append, List.nil_append]

theorem sums_length (pages : List (List Char)) :
    ∀ base : Nat, (sums base pages).length = pages.length := by
  induction pages with
  | nil => intro b; rfl
  | cons p ps ih => intro b; simp [sums, ih]

theorem sums_getD (pages : List (List Char)) :
    ∀ (base i : Nat), i < pages.length →
      (base :: sums base pages).getD (i + 1) 0 =
        (base :: sums base pages).getD i 0 + ((pages.getD i []).length + 2) := by
  induction pages with
  | nil => intro b i hi; exact absurd hi (by simp)
  | cons p ps ih =>
    intro b i hi
    cases i with
    | zero => simp [sums]
    | succ j =>
      have hj : j < ps.length := by simpa using hi
      have := ih (b + (p.length + 2)) j hj
      simpa [sums] using this

theorem sums_chain (pages : List (List Char)) :
    ∀ base : Nat, List.Chain (· < ·) base (sums base pages) := by
  induction pages with
  | nil => intro b; exact List.Chain.nil
  | cons p ps ih =>
    intro b
    exact List.Chain.cons (by omega) (ih (b + (p.length + 2)))

theorem sums_pairwise (pages : List (List Char)) (base : Nat) :
    List.Pairwise (· < ·) (base :: sums base pages) :=
  List.chain_iff_pairwise.mp (sums_chain pages base)

/-- The page map produced by a successful run of the chunk builder is
`0 :: sums 0 pages`. -/
theorem page_map_of_success {pages : List (List Char)} {chunks : List Chunk}
    {pm : List Nat} (h : extract_entities_chunks pages = some (chunks, pm)) :
    pm = 0 :: sums 0 pages := by
  simp only [extract_entities_chunks] at h
  cases hb : buildChunksAux pages initState with
  | none => rw [hb] at h; exact Option.noConfusion h
  | some st =>
    rw [hb] at h
    injection h with h
    have h2 := congrArg Prod.snd h
    simp only at h2
    have h3 := buildChunksAux_page_map pages initState st hb
    rw [← h2, h3, pmFold_eq]
    rfl

/-- Claim C4: for every input page sequence (on which the builder
succeeds), the OffsetMap has length page count + 1, starts at 0, each
successive entry exceeds the previous by exactly that page's character
length + 2, and it is strictly increasing. -/
theorem C4_offsetmap (pages : List (List Char)) (chunks : List Chunk)
    (pm : List Nat) (i : Nat)
    (h : extract_entities_chunks pages = some (chunks, pm))
    (hi : i < pages.length) :
    pm.length = pages.length + 1 ∧ pm.getD 0 0 = 0 ∧
    pm.getD (i + 1) 0 = pm.getD i 0 + ((pages.getD i []).length + 2) ∧
    List.Pairwise (· < ·) pm := by
  have hpm := page_map_of_success h
  subst hpm
  refine ⟨?_, rfl, sums_getD pages 0 i hi, sums_pairwise pages 0⟩
  simp [sums_length]

/-- Witness for C4 at a concrete two-page input. -/
theorem C4_offsetmap_witness :
    [0, 3, 5].length = [['a'], []].length + 1 ∧
    [0, 3, 5].getD 0 0 = 0 ∧
    [0, 3, 5].getD 1 0 = [0, 3, 5].getD 0 0 + (([['a'], []].getD 0 []).length + 2) ∧
    List.Pairwise (· < ·) [0, 3, 5] :=
  C4_offsetmap [['a'], []] [⟨['a', '\n', '\n', '\n', '\n'], 0⟩] [0, 3, 5] 0
    rfl (by decide)

/-! ### The chunk-builder loop invariant -/

theorem docText_concat (pages : List (List Char)) (p : List Char) :
    docText (pages ++ [p]) = docText pages ++ (p ++ sep) := by
  simp [docText]

theorem length_sep : sep.length = 2 := rfl

/-- The invariant of the page loop of `extract_entities`, after processing
the pages in `processed`:  the byte accounting of the pending accumulator
(which omits the 2 separator bytes per page), the ≤ `BYTE_LIMIT` bound on
that accounting, the relationship between `character_offset`,
`total_characters` and the text flushed so far, and the per-chunk facts
needed for claims C1 and C2. -/
structure Inv (processed : List (List Char)) (st : BuildState) : Prop where
  bytes_eq : utf8Len st.texts.flatten = st.total_bytes + 2 * st.texts.length
  bytes_le : st.total_bytes ≤ BYTE_LIMIT
  texts_count : st.texts.length ≤ processed.length
  chars : st.total_characters = (docText processed).length
  split : (st.chunks.map Chunk.text).flatten ++ st.texts.flatten = docText processed
  offs : st.character_offset = ((st.chunks.map Chunk.text).flatten).length
  cum : ∀ i, i < st.chunks.length →
    (st.chunks.getD i default).char_offset =
      (((st.chunks.take i).map Chunk.text).flatten).length
  bounds : ∀ c ∈ st.chunks, utf8Len c.text ≤ BYTE_LIMIT + 2 * processed.length

theorem inv_init : Inv [] initState := by
  refine ⟨rfl, by simp [BYTE_LIMIT, initState], by simp [initState],
    rfl, rfl, rfl, ?_, ?_⟩ <;> simp [initState]

theorem inv_step {processed : List (List Char)} {st st2 : BuildState}
    {page : List Char} (inv : Inv processed st)
    (h : stepPage st page = some st2) : Inv (processed ++ [page]) st2 := by
  simp only [stepPage] at h
  split at h
  · exact Option.noConfusion h
  · rename_i hbig
    have hble : utf8Len page ≤ BYTE_LIMIT := by omega
    split at h
    · -- flush branch
      rename_i hover
      injection h with h2
      subst h2
      refine ⟨?_, hble, ?_, ?_, ?_, ?_, ?_, ?_⟩
      · simp [utf8Len_append, utf8Len_sep]
      · simp
      · simp only [inv.chars, docText_concat, List.length_append,
          List.length_append, length_sep]
      · simp only [List.map_append, List.map_cons, List.map_nil,
          List.flatten_append, List.flatten_cons, List.flatten_nil,
          docText_concat]
        rw [List.append_nil, List.append_assoc, ← inv.split]
        simp
      · simp only [List.map_append, List.map_cons, List.map_nil,
          List.flatten_append, List.flatten_cons, List.flatten_nil,
          List.append_nil, List.length_append]
        have hlen : (docText processed).length =
            ((st.chunks.map Chunk.text).flatten).length + st.texts.flatten.length := by
          rw [← inv.split]; simp
        rw [inv.chars, hlen]
      · intro i hi
        simp only [List.length_append, List.length_cons, List.length_nil] at hi
        rcases Nat.lt_or_ge i st.chunks.length with hlt | hge
        · rw [List.getD_append _ _ _ _ hlt,
            List.take_append_of_le_length (Nat.le_of_lt hlt)]
          exact inv.cum i hlt
        · have : i = st.chunks.length := by omega
          subst this
          rw [List.getD_append_right _ _ _ _ (Nat.le_refl _)]
          simp only [Nat.sub_self, List.getD]
          rw [List.take_append_of_le_length (Nat.le_refl _), List.take_length]
          exact inv.offs
      · intro c hc
        rcases List.mem_append.mp hc with hold | hnew
        · have := inv.bounds c hold
          simp only [List.length_append, List.length_cons, List.length_nil]
          omega
        · have : c = ⟨st.texts.flatten, st.character_offset⟩ := by
            simpa using hnew
          subst this
          simp only [List.length_append, List.length_cons, List.length_nil]
          have h1 := inv.bytes_eq
          have h2 := inv.texts_count
          have h3 := inv.bytes_le
          omega
    · -- append branch
      rename_i hfits
      injection h with h2
      subst h2
      refine ⟨?_, (by omega : st.total_bytes + utf8Len page ≤ BYTE_LIMIT),
        ?_, ?_, ?_, inv.offs, inv.cum, ?_⟩
      · simp only [List.flatten_append, List.flatten_cons, List.flatten_nil,
          List.append_nil, utf8Len_append, utf8Len_sep, inv.bytes_eq,
          List.length_append, List.length_cons, List.length_nil]
        ring
      · have := inv.texts_count
        simp only [List.length_append, List.length_cons, List.length_nil]
        omega
      · simp only [inv.chars, docText_concat, List.length_append, length_sep]
      · simp only [List.flatten_append, List.flatten_cons, List.flatten_nil,
          List.append_nil, docText_concat, ← inv.split, List.append_assoc]
      · intro c hc
        have := inv.bounds c hc
        simp only [List.length_append, List.length_cons, List.length_nil]
        omega

theorem buildChunksAux_inv :
    ∀ (pages processed : List (List Char)) (st st2 : BuildState),
      Inv processed st → buildChunksAux pages st = some st2 →
      Inv (processed ++ pages) st2
  | [], processed, st, st2, inv, h => by
    injection h with h; subst h; simpa using inv
  | page :: pages, processed, st, st2, inv, h => by
    simp only [buildChunksAux] at h
    cases hs : stepPage st page with
    | none => rw [hs] at h; exact Option.noConfusion h
    | some st1 =>
      rw [hs] at h
      have := buildChunksAux_inv pages (processed ++ [page]) st1 st2
        (inv_step inv hs) h
      simpa using this

/-- A successful chunk build yields a final state satisfying the loop
invariant over all pages, and the chunk list is that state's flushed
chunks followed by the final flush. -/
theorem chunks_inv {pages : List (List Char)} {chunks : List Chunk}
    {pm : List Nat} (h : extract_entities_chunks pages = some (chunks, pm)) :
    ∃ st : BuildState, Inv pages st ∧
      chunks = st.chunks ++ [⟨st.texts.flatten, st.character_offset⟩] := by
  simp only [extract_entities_chunks] at h
  cases hb : buildChunksAux pages initState with
  | none => rw [hb] at h; exact Option.noConfusion h
  | some st =>
    rw [hb] at h
    injection h with h
    have h2 := congrArg Prod.fst h
    simp only at h2
    exact ⟨st, by simpa using buildChunksAux_inv pages [] initState st inv_init hb,
      h2.symm⟩

/-- Claim C1 (amended): under the claim's hypothesis that every page's
UTF-8 byte length is at most `BYTE_LIMIT`, every chunk passed to the
extraction call has UTF-8 byte length at most
`BYTE_LIMIT + 2 * (number of pages)`: the strict-`>` flush decision
bounds only the sum of the pages' own content bytes by `BYTE_LIMIT`; the
two-byte `"\n\n"` separator appended to each page is not counted, so a
chunk can exceed `BYTE_LIMIT` by up to two bytes per page it contains. -/
theorem C1_chunk_bound (pages : List (List Char)) (chunks : List Chunk)
    (pm : List Nat) (c : Chunk)
    (_hp : ∀ p ∈ pages, utf8Len p ≤ BYTE_LIMIT)
    (h : extract_entities_chunks pages = some (chunks, pm))
    (hc : c ∈ chunks) :
    utf8Len c.text ≤ BYTE_LIMIT + 2 * pages.length := by
  obtain ⟨st, inv, hch⟩ := chunks_inv h
  subst hch
  rcases List.mem_append.mp hc with hold | hnew
  · exact inv.bounds c hold
  · have hceq : c = ⟨st.texts.flatten, st.character_offset⟩ := by simpa using hnew
    subst hceq
    have h1 := inv.bytes_eq
    have h2 := inv.bytes_le
    have h3 := inv.texts_count
    simp only
    omega

/-- Witness for C1 (amended) at a one-page input. -/
theorem C1_chunk_bound_witness :
    utf8Len (Chunk.text ⟨['a', '\n', '\n'], 0⟩) ≤ BYTE_LIMIT + 2 * [['a']].length :=
  C1_chunk_bound [['a']] [⟨['a', '\n', '\n'], 0⟩] [0, 3] ⟨['a', '\n', '\n'], 0⟩
    (by decide) rfl (by decide)

theorem getLastD_single (x d : Nat) : ([x] : List Nat).getLastD d = x := rfl

/-- On a single page whose byte length is exactly `BYTE_LIMIT`, the
builder takes the accumulate branch and the final flush emits one chunk
consisting of the page plus the two-character separator. -/
theorem chunks_single_page (page : List Char)
    (hbytes : utf8Len page = BYTE_LIMIT) :
    extract_entities_chunks [page] =
      some ([⟨page ++ sep, 0⟩], [0, page.length + 2]) := by
  have h1 : ¬ utf8Len page > BYTE_LIMIT := by omega
  have h2 : ¬ 0 + utf8Len page > BYTE_LIMIT := by omega
  have hstep : stepPage initState page =
      some ⟨[page ++ sep], 0 + utf8Len page, [0, page.length + 2], 0,
        0 + (page.length + 2), []⟩ := by
    simp only [stepPage, initState, pmStep]
    rw [if_neg h1, if_neg h2]
    simp [getLastD_single]
  simp only [extract_entities_chunks, buildChunksAux, hstep]
  simp

/-- Claim C1 counterexample: a single page of exactly `BYTE_LIMIT` UTF-8
bytes satisfies the claim's hypothesis (its own byte length is ≤
`BYTE_LIMIT`, so the builder does not abort), yet the single chunk passed
to the extraction call carries the appended `"\n\n"` separator and has
byte length `BYTE_LIMIT + 2`, strictly over the limit. -/
theorem C1_counterexample :
    utf8Len (List.replicate 1000000 'a') ≤ BYTE_LIMIT ∧
    extract_entities_chunks [List.replicate 1000000 'a'] =
      some ([⟨List.replicate 1000000 'a' ++ sep, 0⟩], [0, 1000002]) ∧
    BYTE_LIMIT < utf8Len (List.replicate 1000000 'a' ++ sep) := by
  have hca : charBytes 'a' = 1 := by decide
  have hb : utf8Len (List.replicate 1000000 'a') = 1000000 := by
    rw [utf8Len_replicate, hca, Nat.mul_one]
  refine ⟨by rw [hb]; exact Nat.le_refl _, ?_, ?_⟩
  · have h := chunks_single_page (List.replicate 1000000 'a') (by rw [hb]; rfl)
    have h2 : (List.replicate 1000000 'a').length + 2 = 1000002 := by
      rw [List.length_replicate]
    rw [h, h2]
  · rw [utf8Len_append, hb, utf8Len_sep]
    exact Nat.lt_add_of_pos_right (by omega)

/-- Claim C2: (1) every chunk's `char_offset` is the running global
character count of everything before it — on a flush the accumulator is
emitted at the current `char_offset` and `char_offset` is reset to the
running count before the overflowing page, which makes each chunk's
`char_offset` exactly the length of the text of all chunks before it;
(2) the chunks' texts concatenate to the analyzed document text, so a
chunk-relative position `o` in chunk `i` is global position
`char_offset + o`; (3) `extract_entities_text` shifts every returned
mention's chunk-relative `begin_offset` by exactly the `character_offset`
it is given.  Together: after extraction every mention's `begin_offset` is
its global character offset. -/
theorem C2_global_offsets (pages : List (List Char)) (chunks : List Chunk)
    (pm : List Nat) (i : Nat) (analyze : List Char → List RawEntity)
    (text : List Char) (c0 : Nat)
    (h : extract_entities_chunks pages = some (chunks, pm))
    (hi : i < chunks.length) :
    (chunks.getD i default).char_offset =
      (((chunks.take i).map Chunk.text).flatten).length ∧
    (chunks.map Chunk.text).flatten = docText pages ∧
    (extract_entities_text analyze text c0).map
        (fun e => e.mentions.map Mention.begin_offset) =
      ((analyze text).filter (fun e => e.metadata.wikipedia_url.isSome)).map
        (fun e => e.mentions.map (fun m => m.begin_offset + c0)) := by
  obtain ⟨st, inv, hch⟩ := chunks_inv h
  subst hch
  refine ⟨?_, ?_, ?_⟩
  · simp only [List.length_append, List.length_cons, List.length_nil] at hi
    rcases Nat.lt_or_ge i st.chunks.length with hlt | hge
    · rw [List.getD_append _ _ _ _ hlt,
        List.take_append_of_le_length (Nat.le_of_lt hlt)]
      exact inv.cum i hlt
    · have : i = st.chunks.length := by omega
      subst this
      rw [List.getD_append_right _ _ _ _ (Nat.le_refl _)]
      simp only [Nat.sub_self, List.getD]
      rw [List.take_append_of_le_length (Nat.le_refl _), List.take_length]
      exact inv.offs
  · simp only [List.map_append, List.map_cons, List.map_nil,
      List.flatten_append, List.flatten_cons, List.flatten_nil,
      List.append_nil]
    exact inv.split
  · simp only [extract_entities_text, List.map_map, Function.comp_def]

/-- Witness for C2 at a two-page document (one chunk) and a concrete
analyze result with one mention at chunk-relative offset 2, shifted by 3. -/
theorem C2_global_offsets_witness :
    (([⟨['a', '\n', '\n', 'b', '\n', '\n'], 0⟩] :
        List Chunk).getD 0 default).char_offset =
      ((([⟨['a', '\n', '\n', 'b', '\n', '\n'], 0⟩] :
        List Chunk).take 0).map Chunk.text).flatten.length ∧
    (([⟨['a', '\n', '\n', 'b', '\n', '\n'], 0⟩] :
        List Chunk).map Chunk.text).flatten = docText [['a'], ['b']] ∧
    (extract_entities_text
        (fun _ => [⟨⟨some "w", none⟩, 1, [⟨"m", 2⟩]⟩]) ['x'] 3).map
        (fun e => e.mentions.map Mention.begin_offset) =
      (((fun (_ : List Char) => [(⟨⟨some "w", none⟩, 1, [⟨"m", 2⟩]⟩ : RawEntity)]) ['x']).filter
          (fun e => e.metadata.wikipedia_url.isSome)).map
        (fun e => e.mentions.map (fun m => m.begin_offset + 3)) :=
  C2_global_offsets [['a'], ['b']] [⟨['a', '\n', '\n', 'b', '\n', '\n'], 0⟩]
    [0, 3, 6] 0 (fun _ => [⟨⟨some "w", none⟩, 1, [⟨"m", 2⟩]⟩]) ['x'] 3
    rfl (by decide)

/-! ### The offset reconciler (`bisect` and `transform_mentions`) -/

theorem bisect_cons (y : Nat) (l : List Nat) (x : Nat) :
    bisect (y :: l) x = if y ≤ x then bisect l x + 1 else 0 := by
  by_cases h : y ≤ x <;> simp [bisect, List.takeWhile, h]

/-- The entry of the map at the page index chosen by `bisect` is ≤ the
offset being located (the last element taken by `takeWhile` satisfies the
predicate); no sortedness is needed. -/
theorem bisect_getD_le :
    ∀ (l : List Nat) (x : Nat), 0 < bisect l x → l.getD (bisect l x - 1) 0 ≤ x := by
  intro l
  induction l with
  | nil => intro x hx; exact absurd hx (by simp [bisect])
  | cons y ys ih =>
    intro x hx
    rw [bisect_cons] at hx ⊢
    by_cases h : y ≤ x
    · rw [if_pos h] at hx ⊢
      cases hb : bisect ys x with
      | zero => simpa [hb] using h
      | succ b =>
        have := ih x (by omega)
        rw [hb] at this
        simpa [hb] using this
    · rw [if_neg h] at hx
      exact absurd hx (by omega)

/-- On a strictly increasing map, an offset bracketed between entries `p`
and `p+1` bisects to insertion point `p + 1`. -/
theorem bisect_eq_of_bracket :
    ∀ (l : List Nat) (x p : Nat), List.Pairwise (· < ·) l →
      p + 1 < l.length → l.getD p 0 ≤ x → x < l.getD (p + 1) 0 →
      bisect l x = p + 1 := by
  intro l
  induction l with
  | nil => intro x p _ hp; exact absurd hp (by simp)
  | cons y ys ih =>
    intro x p hs hp h1 h2
    have hpair := List.pairwise_cons.mp hs
    cases p with
    | zero =>
      have hy : y ≤ x := by simpa using h1
      rw [bisect_cons, if_pos hy]
      cases ys with
      | nil => exact absurd hp (by simp)
      | cons z zs =>
        have hz : x < z := by simpa using h2
        rw [bisect_cons, if_neg (by omega)]
    | succ q =>
      have hq : q + 1 < ys.length := by simpa using hp
      have h1' : ys.getD q 0 ≤ x := by simpa using h1
      have h2' : x < ys.getD (q + 1) 0 := by simpa using h2
      have hmem : ys.getD q 0 ∈ ys := by
        rw [List.getD_eq_getElem ys 0 (by omega)]
        exact List.getElem_mem _
      have hy : y ≤ x := le_trans (le_of_lt (hpair.1 _ hmem)) h1'
      rw [bisect_cons, if_pos hy, ih x q hpair.2 hq h1' h2']

/-- Claim C3: for a strictly increasing OffsetMap starting at 0, a mention
whose global offset `o` satisfies `OffsetMap[p] ≤ o < OffsetMap[p+1]` is
reconciled to page `p` with `page_offset = o - OffsetMap[p]`, and every
reconciled occurrence (bracketed or not) has a non-negative page offset. -/
theorem C3_reconcile (pm : List Nat) (p o : Nat) (ms : List Mention)
    (m m2 : Mention)
    (hs : List.Pairwise (· < ·) pm) (hhead : pm.getD 0 0 = 0)
    (hp : p + 1 < pm.length) (hm : m ∈ ms) (_hm2 : m2 ∈ ms)
    (ho : m.begin_offset = o)
    (h1 : pm.getD p 0 ≤ o) (h2 : o < pm.getD (p + 1) 0) :
    reconcile pm m ∈ transform_mentions ms pm ∧
    (reconcile pm m).page = p ∧
    (reconcile pm m).page_offset = (o : Int) - (pm.getD p 0 : Int) ∧
    0 ≤ (reconcile pm m2).page_offset := by
  subst ho
  have hbis : bisect pm m.begin_offset = p + 1 :=
    bisect_eq_of_bracket pm m.begin_offset p hs hp h1 h2
  refine ⟨List.mem_map_of_mem _ hm, ?_, ?_, ?_⟩
  · simp [reconcile, hbis]
  · simp [reconcile, hbis]
  · -- non-negativity for an arbitrary mention of the list
    cases pm with
    | nil =>
      simp [reconcile, bisect]
    | cons y ys =>
      have hy : y = 0 := by simpa using hhead
      subst hy
      have hpos : 0 < bisect (0 :: ys) m2.begin_offset := by
        rw [bisect_cons, if_pos (Nat.zero_le _)]
        omega
      have hle := bisect_getD_le (0 :: ys) m2.begin_offset hpos
      simp only [reconcile]
      omega

/-- Witness for C3: map `[0, 3, 8]`, mention at global offset 4 →
page 1, page offset 1. -/
theorem C3_reconcile_witness :
    reconcile [0, 3, 8] ⟨"a", 4⟩ ∈ transform_mentions [⟨"a", 4⟩] [0, 3, 8] ∧
    (reconcile [0, 3, 8] ⟨"a", 4⟩).page = 1 ∧
    (reconcile [0, 3, 8] ⟨"a", 4⟩).page_offset =
      ((4 : Nat) : Int) - (([0, 3, 8].getD 1 0 : Nat) : Int) ∧
    0 ≤ (reconcile [0, 3, 8] ⟨"a", 4⟩).page_offset :=
  C3_reconcile [0, 3, 8] 1 4 [⟨"a", 4⟩] ⟨"a", 4⟩ ⟨"a", 4⟩
    (by decide) rfl (by decide) (by decide) (by decide) rfl (by decide) (by decide)

/-! ### Dictionary lemmas -/

theorem dictLookup_insert_self {κ β : Type} [DecidableEq κ]
    (d : List (κ × β)) (k : κ) (v : β) :
    dictLookup (dictInsert d k v) k = some v := by
  induction d with
  | nil => simp [dictInsert, dictLookup]
  | cons p rest ih =>
    by_cases h : p.1 = k
    · simp [dictInsert, dictLookup, h]
    · simp [dictInsert, dictLookup, h, ih]

theorem dictLookup_insert_ne {κ β : Type} [DecidableEq κ]
    (d : List (κ × β)) (k k2 : κ) (v : β) (hne : k ≠ k2) :
    dictLookup (dictInsert d k v) k2 = dictLookup d k2 := by
  induction d with
  | nil => simp [dictInsert, dictLookup, hne]
  | cons p rest ih =>
    by_cases h : p.1 = k
    · simp [dictInsert, dictLookup, h, hne]
    · by_cases h2 : p.1 = k2 <;>
        simp [dictInsert, dictLookup, h, h2, ih, Ne.symm hne]

theorem dictInsert_keys {κ β : Type} [DecidableEq κ]
    (d : List (κ × β)) (k : κ) (v : β) :
    (dictInsert d k v).map Prod.fst =
      if k ∈ d.map Prod.fst then d.map Prod.fst else d.map Prod.fst ++ [k] := by
  induction d with
  | nil => simp [dictInsert]
  | cons p rest ih =>
    by_cases h : p.1 = k
    · simp [dictInsert, h]
    · have hne : ¬ k = p.1 := fun hk => h hk.symm
      by_cases hmem : k ∈ rest.map Prod.fst <;>
        simp [dictInsert, h, ih, hmem, hne]

theorem dictInsert_nodup {κ β : Type} [DecidableEq κ]
    (d : List (κ × β)) (k : κ) (v : β)
    (hn : (d.map Prod.fst).Nodup) :
    ((dictInsert d k v).map Prod.fst).Nodup := by
  rw [dictInsert_keys]
  by_cases hmem : k ∈ d.map Prod.fst
  · simpa [hmem] using hn
  · rw [if_neg hmem]
    rw [List.nodup_append]
    refine ⟨hn, List.nodup_singleton k, ?_⟩
    intro a ha hak
    have haeq : a = k := by simpa using hak
    subst haeq
    exact hmem ha

/-! ### The collapse loop -/

/-- The entities of a run that resolve to a given catalog id, in encounter
order. -/
def matching (entity_map : List (String × Nat)) (id : Nat)
    (es : List RawEntity) : List RawEntity :=
  es.filter (fun e => decide (resolveId entity_map e = some id))

/-- Extending an (optional) already-collapsed entity by the mentions of a
list of further entities, in order; with `none` and a nonempty list the
first entity of the list becomes the collapsed value. -/
def extendOpt : Option RawEntity → List RawEntity → Option RawEntity
  | none, [] => none
  | some v, l =>
    some { v with mentions := v.mentions ++ (l.map RawEntity.mentions).flatten }
  | none, e :: l =>
    some { e with mentions := e.mentions ++ (l.map RawEntity.mentions).flatten }

theorem extendOpt_nil (v? : Option RawEntity) : extendOpt v? [] = v? := by
  cases v? with
  | none => rfl
  | some v => simp [extendOpt]

theorem collapse_lookup (em : List (String × Nat)) (ex : List Nat) :
    ∀ (es : List RawEntity) (acc out : List (Nat × RawEntity)),
      collapseLoop em ex es acc = .ok out →
      ∀ id : Nat, id ∉ ex →
        dictLookup out id = extendOpt (dictLookup acc id) (matching em id es) := by
  intro es
  induction es with
  | nil =>
    intro acc out h id _
    injection h with h
    subst h
    rw [matching, List.filter_nil, extendOpt_nil]
  | cons e es ih =>
    intro acc out h id hid
    simp only [collapseLoop] at h
    cases hr : resolveId em e with
    | none => simp only [hr] at h; exact Except.noConfusion h
    | some eid =>
      simp only [hr] at h
      by_cases heid : eid ∈ ex
      · rw [if_pos heid] at h
        have hne : ¬ eid = id := fun hk => hid (hk ▸ heid)
        have hm : matching em id (e :: es) = matching em id es := by
          simp [matching, List.filter_cons, hr, hne]
        rw [hm]
        exact ih acc out h id hid
      · rw [if_neg heid] at h
        by_cases hid2 : eid = id
        · subst hid2
          have hm : matching em eid (e :: es) = e :: matching em eid es := by
            simp [matching, List.filter_cons, hr]
          rw [hm]
          cases hacc : dictLookup acc eid with
          | some prev =>
            rw [hacc] at h
            have := ih _ out h eid hid
            rw [dictLookup_insert_self] at this
            rw [this]
            cases hmm : matching em eid es <;>
              simp [extendOpt, List.append_assoc]
          | none =>
            rw [hacc] at h
            have := ih _ out h eid hid
            rw [dictLookup_insert_self] at this
            rw [this]
            cases hmm : matching em eid es <;> simp [extendOpt]
        · have hm : matching em id (e :: es) = matching em id es := by
            simp [matching, List.filter_cons, hr, hid2]
          rw [hm]
          cases hacc : dictLookup acc eid with
          | some prev =>
            rw [hacc] at h
            have := ih _ out h id hid
            rw [dictLookup_insert_ne _ _ _ _ hid2] at this
            rw [this]
          | none =>
            rw [hacc] at h
            have := ih _ out h id hid
            rw [dictLookup_insert_ne _ _ _ _ hid2] at this
            rw [this]

theorem collapse_nodup (em : List (String × Nat)) (ex : List Nat) :
    ∀ (es : List RawEntity) (acc out : List (Nat × RawEntity)),
      collapseLoop em ex es acc = .ok out →
      (acc.map Prod.fst).Nodup → (out.map Prod.fst).Nodup := by
  intro es
  induction es with
  | nil =>
    intro acc out h hn
    injection h with h
    subst h
    exact hn
  | cons e es ih =>
    intro acc out h hn
    simp only [collapseLoop] at h
    cases hr : resolveId em e with
    | none => simp only [hr] at h; exact Except.noConfusion h
    | some eid =>
      simp only [hr] at h
      by_cases heid : eid ∈ ex
      · rw [if_pos heid] at h
        exact ih acc out h hn
      · rw [if_neg heid] at h
        cases hacc : dictLookup acc eid with
        | some prev =>
          rw [hacc] at h
          exact ih _ out h (dictInsert_nodup _ _ _ hn)
        | none =>
          rw [hacc] at h
          exact ih _ out h (dictInsert_nodup _ _ _ hn)

/-! ### Filter lemmas for the aggregation step -/

theorem filter_of_map {α β : Type} (f : α → β) (p : β → Bool) (l : List α) :
    (l.map f).filter p = (l.filter (fun a => p (f a))).map f := by
  induction l with
  | nil => rfl
  | cons a l ih => by_cases h : p (f a) <;> simp [List.filter_cons, h, ih]

theorem filter_and {α : Type} (p q : α → Bool) (l : List α) :
    (l.filter p).filter q = l.filter (fun a => p a && q a) := by
  induction l with
  | nil => rfl
  | cons a l ih =>
    by_cases hp : p a <;> by_cases hq : q a <;>
      simp [List.filter_cons, hp, hq, ih]

theorem filter_false_of {α : Type} (p : α → Bool) (l : List α)
    (h : ∀ a ∈ l, p a = false) : l.filter p = [] := by
  induction l with
  | nil => rfl
  | cons a l ih =>
    rw [List.filter_cons, if_neg (by simp [h a (by simp)])]
    exact ih (fun b hb => h b (by simp [hb]))

theorem filter_key_nil (d : List (Nat × RawEntity)) (k : Nat)
    (h : k ∉ d.map Prod.fst) :
    d.filter (fun p => decide (p.1 = k)) = [] := by
  refine filter_false_of _ _ (fun p hp => ?_)
  have : p.1 ≠ k := fun he => h (he ▸ List.mem_map_of_mem Prod.fst hp)
  simp [this]

theorem filter_key_singleton (d : List (Nat × RawEntity)) (id : Nat)
    (v : RawEntity) (hn : (d.map Prod.fst).Nodup)
    (h : dictLookup d id = some v) :
    d.filter (fun p => decide (p.1 = id)) = [(id, v)] := by
  induction d with
  | nil => exact Option.noConfusion h
  | cons p rest ih =>
    rw [dictLookup] at h
    rw [List.map_cons] at hn
    have hn2 := List.nodup_cons.mp hn
    by_cases hk : p.1 = id
    · rw [if_pos hk] at h
      injection h with h
      have hnotin : id ∉ rest.map Prod.fst := hk ▸ hn2.1
      rw [List.filter_cons, if_pos (by simp [hk]),
        filter_key_nil rest id hnotin]
      rw [← hk, ← h]
    · rw [if_neg hk] at h
      rw [List.filter_cons, if_neg (by simp [hk])]
      exact ih hn2.2 h

theorem matching_filter_isSome (em : List (String × Nat)) (id : Nat)
    (es : List RawEntity) :
    matching em id (es.filter (fun e => e.metadata.wikidata_id.isSome)) =
      matching em id es := by
  induction es with
  | nil => rfl
  | cons e es ih =>
    cases hw : e.metadata.wikidata_id with
    | some w =>
      have hs : e.metadata.wikidata_id.isSome = true := by simp [hw]
      simp only [List.filter_cons, hs, if_pos, matching] at ih ⊢
      by_cases hc : decide (resolveId em e = some id) = true <;>
        simp [hc, ih]
    | none =>
      have hs : e.metadata.wikidata_id.isSome = false := by simp [hw]
      have hres : resolveId em e = none := by simp [resolveId, hw]
      simp only [List.filter_cons, hs, matching] at ih ⊢
      simp [hres, ih]

/-- Every record emitted by the aggregation step carries a catalog id that
is not in the existing-entity set (the comprehension at
src/main.py line 173 filters them out). -/
theorem aggregate_not_existing (em : List (String × Nat)) (ex : List Nat)
    (es : List RawEntity) (pm : List Nat) (out : List OccurrenceRecord)
    (h : aggregate em ex es pm = Except.ok out) :
    ∀ r ∈ out, r.entity ∉ ex := by
  simp only [aggregate] at h
  cases hcol : collapseLoop em ex
      (es.filter (fun e => e.metadata.wikidata_id.isSome)) [] with
  | error e => rw [hcol] at h; exact Except.noConfusion h
  | ok collapsed =>
    rw [hcol] at h
    injection h with h
    subst h
    intro r hr
    obtain ⟨p, hp, hpr⟩ := List.mem_map.mp hr
    have := List.of_mem_filter hp
    subst hpr
    simpa using this

/-- Claim C5: if several entities of a run resolve to the same catalog id
(not already recorded), the aggregator's output has no duplicate catalog
ids and contains exactly one record for that id, whose occurrences are
the transform of the concatenation, in encounter order, of all those
entities' mentions and whose relevance is the first-seen entity's
salience. -/
theorem C5_collapse (em : List (String × Nat)) (ex : List Nat)
    (es : List RawEntity) (pm : List Nat) (out : List OccurrenceRecord)
    (id : Nat) (e0 : RawEntity) (ms : List RawEntity)
    (h : aggregate em ex es pm = Except.ok out)
    (hid : id ∉ ex)
    (hmatch : matching em id es = e0 :: ms) :
    (out.map OccurrenceRecord.entity).Nodup ∧
    out.filter (fun r => decide (r.entity = id)) =
      [⟨id, e0.salience,
        transform_mentions (((e0 :: ms).map RawEntity.mentions).flatten) pm⟩] := by
  simp only [aggregate] at h
  cases hcol : collapseLoop em ex
      (es.filter (fun e => e.metadata.wikidata_id.isSome)) [] with
  | error e => rw [hcol] at h; exact Except.noConfusion h
  | ok collapsed =>
    rw [hcol] at h
    injection h with h
    subst h
    have hlk := collapse_lookup em ex _ [] collapsed hcol id hid
    rw [matching_filter_isSome, hmatch] at hlk
    simp only [dictLookup] at hlk
    have hval : dictLookup collapsed id =
        some { e0 with mentions := ((e0 :: ms).map RawEntity.mentions).flatten } := by
      rw [hlk]
      simp [extendOpt]
    have hnodup := collapse_nodup em ex _ [] collapsed hcol (by simp)
    constructor
    · rw [List.map_map]
      have hsub : ((collapsed.filter (fun p => decide (p.1 ∉ ex))).map Prod.fst).Sublist
          (collapsed.map Prod.fst) :=
        (List.filter_sublist _).map Prod.fst
      exact (hnodup.sublist hsub)
    · rw [filter_of_map, filter_and]
      have hcong : collapsed.filter
            (fun p => decide (p.1 ∉ ex) && decide (p.1 = id)) =
          collapsed.filter (fun p => decide (p.1 = id)) := by
        apply List.filter_congr
        intro p _
        by_cases hp : p.1 = id
        · simp [hp, hid]
        · simp [hp]
      rw [hcong, filter_key_singleton collapsed id _ hnodup hval]
      rfl

/-- Witness for C5: two entities resolving to catalog id 7, none existing;
the output has one record with both mentions in order and the first
entity's salience. -/
theorem C5_collapse_witness :
    (([⟨7, 1, [⟨"a", 0, 0, 0⟩, ⟨"b", 5, 0, 5⟩]⟩] :
        List OccurrenceRecord).map OccurrenceRecord.entity).Nodup ∧
    ([⟨7, 1, [⟨"a", 0, 0, 0⟩, ⟨"b", 5, 0, 5⟩]⟩] :
        List OccurrenceRecord).filter (fun r => decide (r.entity = 7)) =
      [⟨7, (⟨⟨some "u", some "Q1"⟩, 1, [⟨"a", 0⟩]⟩ : RawEntity).salience,
        transform_mentions
          ((([⟨⟨some "u", some "Q1"⟩, 1, [⟨"a", 0⟩]⟩,
              ⟨⟨some "v", some "Q1"⟩, 2, [⟨"b", 5⟩]⟩] :
            List RawEntity).map RawEntity.mentions).flatten) [0, 10]⟩] :=
  C5_collapse [("Q1", 7)] [99]
    [⟨⟨some "u", some "Q1"⟩, 1, [⟨"a", 0⟩]⟩,
     ⟨⟨some "v", some "Q1"⟩, 2, [⟨"b", 5⟩]⟩]
    [0, 10]
    [⟨7, 1, [⟨"a", 0, 0, 0⟩, ⟨"b", 5, 0, 5⟩]⟩]
    7 ⟨⟨some "u", some "Q1"⟩, 1, [⟨"a", 0⟩]⟩
    [⟨⟨some "v", some "Q1"⟩, 2, [⟨"b", 5⟩]⟩]
    rfl (by decide) rfl

/-- Claim C6: every resolved entity whose catalog id appears in the
existing-entity set fetched for the document is excluded from the
submitted occurrence records, so a re-run whose existing-entities call
reflects the earlier run's writes submits no record for those ids. -/
theorem C6_existing_excluded (gex : List Nat) (mapper : String → Option String)
    (get post : List String → Except Unit (List (String × Nat)))
    (es : List RawEntity) (pm : List Nat) (out : List OccurrenceRecord)
    (rr : ResolveResult) (id : Nat)
    (h : create_entity_occurrences (Except.ok gex) mapper get post es pm =
      Except.ok (out, rr))
    (hid : id ∈ gex) :
    out.filter (fun r => decide (r.entity = id)) = [] := by
  simp only [create_entity_occurrences] at h
  cases hrr : get_or_create_entities mapper get post es with
  | error e => rw [hrr] at h; exact Except.noConfusion h
  | ok rr0 =>
    simp only [hrr] at h
    cases hag : aggregate rr0.entity_map gex rr0.entities pm with
    | error e => simp only [hag] at h; exact Except.noConfusion h
    | ok occ =>
      simp only [hag] at h
      injection h with h
      injection h with h1 h2
      subst h1
      refine filter_false_of _ _ (fun r hr => ?_)
      have hnot := aggregate_not_existing _ _ _ _ _ hag r hr
      have hne : r.entity ≠ id := fun he => hnot (he ▸ hid)
      simp [hne]

/-- Witness for C6: catalog id 7 is already recorded; the single entity of
the run resolves to 7 and the submitted record list is empty. -/
theorem C6_existing_excluded_witness :
    7 ∈ [7] ∧
    ([] : List OccurrenceRecord).filter (fun r => decide (r.entity = 7)) = [] :=
  ⟨by decide,
    C6_existing_excluded [7] (fun _ => some "Q1")
      (fun _ => Except.ok [("Q1", 7)]) (fun _ => Except.ok [])
      [⟨⟨some "u", none⟩, 1, [⟨"a", 0⟩]⟩] [0, 3] []
      ⟨[⟨⟨some "u", some "Q1"⟩, 1, [⟨"a", 0⟩]⟩], [("Q1", 7)], [["Q1"]], []⟩
      7 rfl (by decide)⟩

/-- Claim C8 (amended): the Entity Resolver has no per-batch error
handling — a failed lookup or creation request raises an uncaught error
that propagates out of `get_or_create_entities` and aborts
`create_entity_occurrences` (and with it the whole run); the failed
batch's ids are not merely left unmapped and processing does *not*
continue for other batches.  Separately, an entity whose id is absent
from the mapping raises an uncaught `KeyError` in the collapse loop
instead of being excluded. -/
theorem C8_batch_failure_aborts (gex : Except Unit (List Nat))
    (mapper : String → Option String)
    (get post : List String → Except Unit (List (String × Nat)))
    (es : List RawEntity) (pm : List Nat)
    (h : get_or_create_entities mapper get post es = Except.error ()) :
    create_entity_occurrences gex mapper get post es pm = Except.error () := by
  simp only [create_entity_occurrences, h]

/-- Witness for C8 (amended): a failing existing-entities lookup aborts
the aggregation step entirely. -/
theorem C8_batch_failure_aborts_witness :
    create_entity_occurrences (Except.ok []) (fun _ => some "Q1")
      (fun _ => Except.error ()) (fun _ => Except.ok [])
      [⟨⟨some "u", none⟩, 1, []⟩] [0] = Except.error () :=
  C8_batch_failure_aborts (Except.ok []) (fun _ => some "Q1")
    (fun _ => Except.error ()) (fun _ => Except.ok [])
    [⟨⟨some "u", none⟩, 1, []⟩] [0] rfl

/-- Claim C8 counterexample: a single failing creation batch makes the
whole resolver — and with it the aggregation step — fail (first two
conjuncts): nothing is logged, no other batch is processed, no entity is
merely excluded.  Third conjunct: a creation response that does not echo
the id back leaves the id unmapped, and the collapse loop then fails with
the modelled `KeyError` instead of skipping the entity. -/
theorem C8_counterexample :
    get_or_create_entities (fun _ => some "Q1") (fun _ => Except.ok [])
      (fun _ => Except.error ()) [⟨⟨some "u", none⟩, 1, []⟩] =
        Except.error () ∧
    create_entity_occurrences (Except.ok []) (fun _ => some "Q1")
      (fun _ => Except.ok []) (fun _ => Except.error ())
      [⟨⟨some "u", none⟩, 1, []⟩] [0] = Except.error () ∧
    create_entity_occurrences (Except.ok []) (fun _ => some "Q1")
      (fun _ => Except.ok []) (fun _ => Except.ok [])
      [⟨⟨some "u", none⟩, 1, []⟩] [0] = Except.error () :=
  ⟨rfl, rfl, rfl⟩

/-- Claim C9 evaluated at its failing input: with 26 distinct resolvable
ids, the resolver issues exactly one existing-entities query containing
all 26 ids, although `BULK_LIMIT = 25` (the source comment announces a
limit that the GET does not apply; only the creation POSTs are grouped). -/
theorem C9_single_get_eval :
    Except.map ResolveResult.get_requests
      (get_or_create_entities (fun s => some s) (fun _ => Except.ok [])
        (fun g => Except.ok (g.map (fun s => (s, 0))))
        ((["a01", "a02", "a03", "a04", "a05", "a06", "a07", "a08", "a09",
           "a10", "a11", "a12", "a13", "a14", "a15", "a16", "a17", "a18",
           "a19", "a20", "a21", "a22", "a23", "a24", "a25", "a26"]).map
          (fun u => (⟨⟨some u, none⟩, 1, []⟩ : RawEntity)))) =
      Except.ok [["a01", "a02", "a03", "a04", "a05", "a06", "a07", "a08",
        "a09", "a10", "a11", "a12", "a13", "a14", "a15", "a16", "a17",
        "a18", "a19", "a20", "a21", "a22", "a23", "a24", "a25", "a26"]] ∧
    BULK_LIMIT < 26 :=
  ⟨rfl, by decide⟩

/-- Claim C7 counterexample: a run of two documents in which the first is
missing its text artifact.  `sys.exit(0)` terminates the whole process, so
only the first document is attempted (`mainLoop` returns `[0]`), although
the second document on its own would process normally — refuting
"remaining documents in the run are still processed". -/
theorem C7_counterexample :
    mainLoop ⟨fun _ => [], fun _ => none, fun _ => Except.ok [],
        fun _ => Except.ok [], Except.ok [], fun _ => PostResult.ok⟩
      [⟨0, none⟩, ⟨1, some []⟩] = [0] ∧
    process_document ⟨fun _ => [], fun _ => none, fun _ => Except.ok [],
        fun _ => Except.ok [], Except.ok [], fun _ => PostResult.ok⟩
      ⟨1, some []⟩ = DocOutcome.done :=
  ⟨rfl, rfl⟩

/-- Claim C7 (amended): a missing text artifact, and an HTTP 400 while
submitting an occurrence group, both call `sys.exit(0)` and therefore
terminate the entire process (with exit status 0 and a user-facing
message): processing stops for the failing document *and no remaining
document of the run is processed*. -/
theorem C7_exit_stops_run (O : DocOracles) (d : Document)
    (ds : List Document)
    (h : d.text = none ∨ process_document O d = DocOutcome.exitIndexing) :
    mainLoop O (d :: ds) = [d.id] := by
  rcases h with h | h
  · have hp : process_document O d = DocOutcome.exitMissingText := by
      simp [process_document, h]
    simp [mainLoop, hp, stopsRun]
  · simp [mainLoop, h, stopsRun]

/-- Witness for C7 (amended): an HTTP 400 on the first submission group of
document 5 terminates the run; document 6 is never attempted. -/
theorem C7_exit_stops_run_witness :
    mainLoop ⟨fun _ => [⟨⟨some "u", none⟩, 1, [⟨"m", 0⟩]⟩],
        fun _ => some "Q1", fun _ => Except.ok [("Q1", 7)],
        fun _ => Except.ok [], Except.ok [], fun _ => PostResult.err400⟩
      [⟨5, some [['a']]⟩, ⟨6, some []⟩] = [5] :=
  C7_exit_stops_run
    ⟨fun _ => [⟨⟨some "u", none⟩, 1, [⟨"m", 0⟩]⟩],
      fun _ => some "Q1", fun _ => Except.ok [("Q1", 7)],
      fun _ => Except.ok [], Except.ok [], fun _ => PostResult.err400⟩
    ⟨5, some [['a']]⟩ [⟨6, some []⟩] (Or.inr rfl)

/-- Claim C10: on an empty page list the page loop never runs, the
unconditional final flush still issues exactly one extraction call with
empty text and `char_offset` 0, and the pipeline proceeds to the
aggregation and submission stages with whatever that call returns. -/
theorem C10_empty_document (analyze : List Char → List RawEntity)
    (O : DocOracles) (i : Nat) :
    extract_entities analyze [] =
      some (extract_entities_text analyze [] 0, [0]) ∧
    process_document O ⟨i, some []⟩ =
      aggregation_and_submission O (extract_entities_text O.analyze [] 0) [0] := by
  constructor
  · simp [extract_entities, extract_entities_chunks, buildChunksAux, initState]
  · simp [process_document, extract_entities, extract_entities_chunks,
      buildChunksAux, initState]

end EntityAddon
